import Mathlib

/-!
Verification development for the FedCausalFHE repository.

Part 1 embeds the Solidity contract `src/contracts/FedCausalFHE.sol` as a
state machine: contract storage becomes a structure, mappings become total
functions with the Solidity zero defaults, `require`/`revert` become
`Except.error` with the revert string, and Solidity 0.8 checked arithmetic
becomes an explicit bound check against 2 ^ 256 (a failed check reverts with
an arithmetic-overflow panic).  `euint32` ciphertext handles are opaque
bytes32 words, modelled as `Nat`; `FHE.isInitialized` on a handle is a check
against the zero handle.  The external FHE oracle (`FHE.requestDecryption`
returning a request id, and the decrypted cleartexts delivered to callbacks)
is modelled by passing the request id and the already ABI-decoded cleartexts
as arguments, and `FHE.checkSignatures` by a boolean argument saying whether
the signature check passes.  `block.timestamp` and `msg.sender` are likewise
arguments.

Part 2 embeds the web front end `src/frontend/web/src/App.tsx`: the
JSON-over-bytes key/value blobs it stores on chain become a small JSON value
type, and the `btoa` base64 encoding and `JSON.stringify`/`JSON.parse` string
quoting used by its simulated "FHE" encryption are implemented bit- and
character-faithfully so that the encoding round trip is a theorem about
executable functions.
-/

namespace Contract

/-- The `EncryptedDataset` struct (FedCausalFHE.sol lines 9-15).  The three
`euint32` fields hold opaque ciphertext handles. -/
structure EncryptedDataset where
  id : Nat
  encryptedVariables : Nat
  encryptedObservations : Nat
  encryptedMetadata : Nat
  timestamp : Nat
deriving Repr, DecidableEq

/-- The `CausalModel` struct (lines 17-21). -/
structure CausalModel where
  encryptedGraphStructure : Nat
  encryptedCausalEffects : Nat
  encryptedConfidenceScores : Nat
deriving Repr, DecidableEq

/-- The `DecryptedDataset` struct (lines 23-28). -/
structure DecryptedDataset where
  («variables» observations metadata : String)
  (isRevealed : Bool)
deriving Repr, DecidableEq

/-- The five events declared on lines 37-41. -/
inductive ContractEvent where
  | DatasetSubmitted (id timestamp : Nat)
  | InferenceRequested (datasetId : Nat)
  | ModelGenerated (datasetId : Nat)
  | DecryptionRequested (datasetId : Nat)
  | DatasetDecrypted (datasetId : Nat)
deriving Repr, DecidableEq

/-- Contract storage (lines 30-35), plus the emitted event log.  Solidity
mappings are total functions whose unset entries hold the zero value of the
range type. -/
structure ContractState where
  datasetCount : Nat
  encryptedDatasets : Nat → EncryptedDataset
  decryptedDatasets : Nat → DecryptedDataset
  causalModels : Nat → CausalModel
  requestToDatasetId : Nat → Nat
  events : List ContractEvent

/-- Point update of a Solidity mapping. -/
def updMap (m : Nat → α) (k : Nat) (v : α) : Nat → α :=
  fun i => if i = k then v else m i

/-- The all-zero storage a freshly deployed contract starts from. -/
def initState : ContractState where
  datasetCount := 0
  encryptedDatasets := fun _ => ⟨0, 0, 0, 0, 0⟩
  decryptedDatasets := fun _ => ⟨"", "", "", false⟩
  causalModels := fun _ => ⟨0, 0, 0⟩
  requestToDatasetId := fun _ => 0
  events := []

/-- `2 ^ 256`, the modulus of `uint256`. -/
def UINT256 : Nat := 2 ^ 256

/-- The `onlyDataOwner` modifier (lines 43-45).  Its body is just `_;`: it
reads neither `msg.sender` nor `datasetId` and runs the guarded function
unconditionally. -/
def onlyDataOwner (_sender _datasetId : Nat) (body : Except String ContractState) :
    Except String ContractState :=
  body

/-- `submitEncryptedDataset` (lines 47-71).  `datasetCount += 1` is checked
uint256 arithmetic, so the increment reverts with an overflow panic when
`datasetCount` is `2 ^ 256 - 1`; otherwise the new dataset is stored under
the incremented counter, its cleartext slot is zeroed, and
`DatasetSubmitted` is emitted. -/
def submitEncryptedDataset (s : ContractState)
    (encryptedVariables encryptedObservations encryptedMetadata : Nat)
    (timestamp : Nat) : Except String ContractState :=
  if s.datasetCount + 1 < UINT256 then
    Except.ok { s with
      datasetCount := s.datasetCount + 1,
      encryptedDatasets := updMap s.encryptedDatasets (s.datasetCount + 1)
        ⟨s.datasetCount + 1, encryptedVariables, encryptedObservations,
          encryptedMetadata, timestamp⟩,
      decryptedDatasets := updMap s.decryptedDatasets (s.datasetCount + 1)
        ⟨"", "", "", false⟩,
      events := s.events ++ [ContractEvent.DatasetSubmitted (s.datasetCount + 1) timestamp] }
  else
    Except.error "panic: arithmetic overflow"

/-- `requestDatasetDecryption` (lines 73-86).  It requires the dataset not to
be revealed yet, asks the FHE oracle to decrypt the three ciphertext handles
(the oracle's fresh request id `reqId` is an argument here), records
`requestToDatasetId[reqId] = datasetId` and emits `DecryptionRequested`.  No
existence check is made on `datasetId`. -/
def requestDatasetDecryption (s : ContractState) (sender datasetId reqId : Nat) :
    Except String ContractState :=
  onlyDataOwner sender datasetId <|
  if (s.decryptedDatasets datasetId).isRevealed then
    Except.error "Already decrypted"
  else
    Except.ok { s with
      requestToDatasetId := updMap s.requestToDatasetId reqId datasetId,
      events := s.events ++ [ContractEvent.DecryptionRequested datasetId] }

/-- `decryptDataset` (lines 88-110), the dataset decryption callback.
`cleartexts` stands for the ABI-decoded `string[]` payload and `sigOk` for
the outcome of `FHE.checkSignatures` (which reverts on failure).  Reading
`results[0] .. results[2]` from a shorter decoded array is a Solidity
out-of-bounds panic. -/
def decryptDataset (s : ContractState) (requestId : Nat)
    (cleartexts : List String) (sigOk : Bool) : Except String ContractState :=
  if s.requestToDatasetId requestId = 0 then
    Except.error "Invalid request"
  else if (s.decryptedDatasets (s.requestToDatasetId requestId)).isRevealed then
    Except.error "Already decrypted"
  else if sigOk then
    match cleartexts with
    | r0 :: r1 :: r2 :: _ =>
      Except.ok { s with
        decryptedDatasets := updMap s.decryptedDatasets (s.requestToDatasetId requestId)
          ⟨r0, r1, r2, true⟩,
        events := s.events ++
          [ContractEvent.DatasetDecrypted (s.requestToDatasetId requestId)] }
    | _ => Except.error "panic: array index out of bounds"
  else
    Except.error "invalid decryption signatures"

/-- `requestCausalInference` (lines 112-116): requires a stored dataset with
a nonzero `id`, then just emits `InferenceRequested`. -/
def requestCausalInference (s : ContractState) (sender datasetId : Nat) :
    Except String ContractState :=
  onlyDataOwner sender datasetId <|
  if (s.encryptedDatasets datasetId).id = 0 then
    Except.error "Dataset not found"
  else
    Except.ok { s with events := s.events ++ [ContractEvent.InferenceRequested datasetId] }

/-- `submitCausalModel` (lines 118-131): unconditionally overwrites the model
for `datasetId` and emits `ModelGenerated`.  Nothing here can revert. -/
def submitCausalModel (s : ContractState) (datasetId : Nat)
    (encryptedGraphStructure encryptedCausalEffects encryptedConfidenceScores : Nat) :
    ContractState :=
  { s with
    causalModels := updMap s.causalModels datasetId
      ⟨encryptedGraphStructure, encryptedCausalEffects, encryptedConfidenceScores⟩,
    events := s.events ++ [ContractEvent.ModelGenerated datasetId] }

/-- `requestModelDecryption` (lines 133-151).  `FHE.isInitialized` on the
graph-structure handle is the zero-handle check; `modelComponent` outside
`{0, 1, 2}` reverts; `datasetId * 10 + modelComponent` is checked uint256
arithmetic.  The ciphertext handle selected by the branch is only handed to
the external decryption oracle, whose fresh request id is the argument
`reqId`; the function records the composite id under `reqId` and emits no
event. -/
def requestModelDecryption (s : ContractState) (sender datasetId modelComponent reqId : Nat) :
    Except String ContractState :=
  onlyDataOwner sender datasetId <|
  if (s.causalModels datasetId).encryptedGraphStructure = 0 then
    Except.error "No model available"
  else if modelComponent = 0 ∨ modelComponent = 1 ∨ modelComponent = 2 then
    if datasetId * 10 + modelComponent < UINT256 then
      Except.ok { s with
        requestToDatasetId := updMap s.requestToDatasetId reqId
          (datasetId * 10 + modelComponent) }
    else
      Except.error "panic: arithmetic overflow"
  else
    Except.error "Invalid model component"

/-- The dataset-id half of `decryptModelComponent`'s composite-id decoding
(line 159: `compositeId / 10`). -/
def decodeDatasetId (compositeId : Nat) : Nat :=
  compositeId / 10

/-- The component half of `decryptModelComponent`'s composite-id decoding
(line 160: `uint8(compositeId % 10)`; the `uint8` cast is exact because the
remainder is below 10). -/
def decodeModelComponent (compositeId : Nat) : Nat :=
  compositeId % 10

/-- `decryptModelComponent` (lines 153-165), the model decryption callback.
It looks up the composite id and decodes it into locals, checks the oracle
signatures, ABI-decodes the cleartext into a local — and then returns,
persisting nothing and emitting nothing.  `cleartext` stands for the decoded
string and `sigOk` for the `FHE.checkSignatures` outcome. -/
def decryptModelComponent (s : ContractState) (requestId : Nat)
    (cleartext : String) (sigOk : Bool) : Except String ContractState :=
  let compositeId := s.requestToDatasetId requestId
  let _datasetId := decodeDatasetId compositeId
  let _modelComponent := decodeModelComponent compositeId
  let _result := cleartext
  if sigOk then Except.ok s else Except.error "invalid decryption signatures"

/-- The `getDecryptedDataset` view (lines 167-175). -/
def getDecryptedDataset (s : ContractState) (datasetId : Nat) :
    String × String × String × Bool :=
  ⟨(s.decryptedDatasets datasetId).«variables»,
   (s.decryptedDatasets datasetId).observations,
   (s.decryptedDatasets datasetId).metadata,
   (s.decryptedDatasets datasetId).isRevealed⟩

/-- The `hasCausalModel` view (lines 177-179). -/
def hasCausalModel (s : ContractState) (datasetId : Nat) : Bool :=
  (s.causalModels datasetId).encryptedGraphStructure ≠ 0

/-- The id invariant implicit in `submitEncryptedDataset`: every stored
dataset from 1 to `datasetCount` carries its own key as its nonzero `id`. -/
def datasetInv (s : ContractState) : Prop :=
  ∀ i, 1 ≤ i → i ≤ s.datasetCount →
    (s.encryptedDatasets i).id = i ∧ (s.encryptedDatasets i).id ≠ 0

end Contract

namespace WebApp

/-- JSON values, as stored in the key/value contract's byte blobs after
`JSON.parse`.  Numbers are restricted to the integers the app actually
writes (unix timestamps). -/
inductive Json where
  | str (s : String)
  | num (n : Int)
  | bool (b : Bool)
  | null
  | arr (elems : List Json)
  | obj (fields : List (String × Json))
deriving Repr, BEq

/-- The `newData` form state of App.tsx (lines 38-41): the two text inputs
of the submit modal. -/
structure NewData where
  («variables» description : String)
deriving Repr, DecidableEq

/-- The `CausalData` interface of App.tsx (lines 9-16).  `status` is kept as
a plain string. -/
structure CausalData where
  (id encryptedVariables : String)
  (timestamp : Int)
  (institution status fheProof : String)
deriving Repr, DecidableEq

/-- Modelled from the spec: the app talks to "a blockchain contract's generic
key/value store" whose Solidity source is not under `src/` (App.tsx only
imports its client wrappers from `./contract`, which is also absent).  Per
the spec it is a generic byte store keyed by strings: `setData key value`
stores a blob, `getData key` returns the stored blob or empty bytes, and
`isAvailable` reports the service as available.  Blobs written and read by
the app are always UTF-8 JSON, so the store maps keys to parsed JSON values,
`none` standing for the empty blob of a never-written key. -/
def KVStore : Type := String → Option Json

/-- The world the web app acts on: the generic key/value store it uses, next
to the FedCausalFHE contract's storage, which it never touches. -/
structure World where
  kv : KVStore
  fed : Contract.ContractState

/-- Modelled from the spec: the key/value contract's `isAvailable` (checked
by `loadData`, App.tsx line 85). -/
def isAvailable (_w : World) : Bool :=
  true

/-- Modelled from the spec: the key/value contract's `getData`. -/
def getData (w : World) (key : String) : Option Json :=
  w.kv key

/-- Modelled from the spec: the key/value contract's `setData`. -/
def setData (w : World) (key : String) (value : Json) : World :=
  { w with kv := fun k => if k = key then some value else w.kv k }

/-- A world whose key/value store is empty and whose FedCausalFHE contract
is freshly deployed. -/
def emptyWorld : World where
  kv := fun _ => none
  fed := Contract.initState

/-- The storage key `data_<id>` used for a dataset record (App.tsx lines
106, 170, 248). -/
def dataKey (id : String) : String :=
  "data_" ++ id

/-- First-match field lookup in a JSON object's field list. -/
def lookupField : List (String × Json) → String → Option Json
  | [], _ => none
  | (k, v) :: rest, key => if k = key then some v else lookupField rest key

/-- JavaScript property read `data.k`: a field of an object, `undefined`
(here `none`) otherwise. -/
def getField : Json → String → Option Json
  | Json.obj fields, key => lookupField fields key
  | _, _ => none

/-- Setting one property while keeping object key order, as the spread
`{...data, k: v}` does: an existing key keeps its position and gets the new
value, a fresh key is appended.  Spreading a non-object copies no
properties, leaving just the new key. -/
def setFieldList : List (String × Json) → String → Json → List (String × Json)
  | [], key, v => [(key, v)]
  | (k, v0) :: rest, key, v =>
    if k = key then (k, v) :: rest else (k, v0) :: setFieldList rest key v

/-- `{...j, key: v}` on a JSON value. -/
def setField : Json → String → Json → Json
  | Json.obj fields, key, v => Json.obj (setFieldList fields key v)
  | _, key, v => Json.obj [(key, v)]

def jsonAsStr : Json → Option String
  | Json.str s => some s
  | _ => none

def jsonAsInt : Json → Option Int
  | Json.num n => some n
  | _ => none

/-- `data.k` read as a string field. -/
def jsonFieldStr (j : Json) (key : String) : Option String :=
  (getField j key).bind jsonAsStr

/-- `data.k` read as a number field. -/
def jsonFieldInt (j : Json) (key : String) : Option Int :=
  (getField j key).bind jsonAsInt

/-- `data.status || "pending"` (App.tsx line 115): the empty string is falsy
in JavaScript, so it also falls back to `"pending"`. -/
def statusOf (j : Json) : String :=
  match jsonFieldStr j "status" with
  | some s => if s = "" then "pending" else s
  | none => "pending"

/-- Building one `CausalData` list entry from a stored record (App.tsx lines
110-117).  The app reads `variables`, `timestamp` and `institution` without
fallbacks; records lacking them would surface as `undefined`, which the
model renders as the JSON-absent defaults `""` and `0` (the records the app
itself writes always carry all fields). -/
def entryOfJson (key : String) (data : Json) : CausalData where
  id := key
  encryptedVariables := (jsonFieldStr data "variables").getD ""
  timestamp := (jsonFieldInt data "timestamp").getD 0
  institution := (jsonFieldStr data "institution").getD ""
  status := statusOf data
  fheProof := (jsonFieldStr data "fheProof").getD ""

/-- Decoding the `data_keys` blob into the id list `loadData` iterates over
(App.tsx lines 91-100): a missing blob (or one that fails to parse) yields
`[]`; array elements that are strings are the keys.  (The app only ever
stores arrays of strings under `data_keys`.) -/
def decodeKeys : Option Json → List String
  | some (Json.arr elems) => elems.filterMap jsonAsStr
  | _ => []

/-- Descending-by-timestamp insertion, modelling the comparator
`(a, b) => b.timestamp - a.timestamp` of App.tsx line 127. -/
def insertDesc (x : CausalData) : List CausalData → List CausalData
  | [] => [x]
  | y :: rest =>
    if y.timestamp ≤ x.timestamp then x :: y :: rest else y :: insertDesc x rest

/-- The `list.sort` call of App.tsx line 127 (any comparator-respecting sort;
JavaScript fixes no algorithm). -/
def sortDesc (l : List CausalData) : List CausalData :=
  l.foldr insertDesc []

/-- `loadData` (App.tsx lines 78-135): read `data_keys`, read `data_<key>`
for each key (skipping empty blobs), build the entries and sort them by
descending timestamp.  It only ever reads, so it returns just the list. -/
def loadData (w : World) : List CausalData :=
  if isAvailable w then
    sortDesc ((decodeKeys (getData w "data_keys")).filterMap
      (fun k => (getData w (dataKey k)).map (entryOfJson k)))
  else []

end WebApp

namespace WebApp

/-- How `JSON.stringify` quotes one character inside a string literal:
quote and backslash get escaped, the control characters below 0x20 get their
short escapes (`\b \t \n \f \r`) or a `\u00XX` escape, everything else is
emitted verbatim. -/
def escapeChar (c : Char) : List Char :=
  if c = Char.ofNat 34 then [Char.ofNat 92, Char.ofNat 34]
  else if c = Char.ofNat 92 then [Char.ofNat 92, Char.ofNat 92]
  else if c.toNat = 8 then [Char.ofNat 92, 'b']
  else if c.toNat = 9 then [Char.ofNat 92, 't']
  else if c.toNat = 10 then [Char.ofNat 92, 'n']
  else if c.toNat = 12 then [Char.ofNat 92, 'f']
  else if c.toNat = 13 then [Char.ofNat 92, 'r']
  else if c.toNat < 32 then
    [Char.ofNat 92, 'u', '0', '0', hexDigitChar (c.toNat / 16), hexDigitChar (c.toNat % 16)]
  else [c]
where
  /-- Lower-case hex digit, as `JSON.stringify` emits in `\u` escapes. -/
  hexDigitChar (n : Nat) : Char :=
    if n < 10 then Char.ofNat (48 + n) else Char.ofNat (87 + n)

/-- Quote a whole character list. -/
def escList : List Char → List Char
  | [] => []
  | c :: rest => escapeChar c ++ escList rest

/-- Value of one hex digit, accepting both cases as `JSON.parse` does. -/
def hexVal (c : Char) : Option Nat :=
  if 48 ≤ c.toNat ∧ c.toNat ≤ 57 then some (c.toNat - 48)
  else if 97 ≤ c.toNat ∧ c.toNat ≤ 102 then some (c.toNat - 87)
  else if 65 ≤ c.toNat ∧ c.toNat ≤ 70 then some (c.toNat - 55)
  else none

/-- Prepend a decoded character to the result of decoding the remainder. -/
def mapConsOpt (c : Char) : Option (List Char × List Char) → Option (List Char × List Char)
  | some (s, rest) => some (c :: s, rest)
  | none => none

/-- A four-hex-digit `\uXXXX` payload: its decoded character and the input
after it.  Scalar values from 0xD800 up are rejected (the app never stores
text needing surrogate pairs). -/
def hex4 : List Char → Option (Char × List Char)
  | h1 :: h2 :: h3 :: h4 :: rest =>
    match hexVal h1, hexVal h2, hexVal h3, hexVal h4 with
    | some a, some b, some c, some d =>
      if a * 4096 + b * 256 + c * 16 + d < 55296 then
        some (Char.ofNat (a * 4096 + b * 256 + c * 16 + d), rest)
      else none
    | _, _, _, _ => none
  | _ => none

/-- One JSON escape sequence after the backslash: the decoded character and
the input after the sequence. -/
def escDecode : List Char → Option (Char × List Char)
  | [] => none
  | e :: rest =>
    if e = Char.ofNat 34 then some (Char.ofNat 34, rest)
    else if e = Char.ofNat 92 then some (Char.ofNat 92, rest)
    else if e = '/' then some ('/', rest)
    else if e = 'b' then some (Char.ofNat 8, rest)
    else if e = 't' then some (Char.ofNat 9, rest)
    else if e = 'n' then some (Char.ofNat 10, rest)
    else if e = 'f' then some (Char.ofNat 12, rest)
    else if e = 'r' then some (Char.ofNat 13, rest)
    else if e = 'u' then hex4 rest
    else none

theorem hex4_length (l : List Char) (p : Char × List Char) (h : hex4 l = some p) :
    p.2.length < l.length := by
  match l with
  | [] => cases h
  | [h1] => cases h
  | [h1, h2] => cases h
  | [h1, h2, h3] => cases h
  | h1 :: h2 :: h3 :: h4 :: rest =>
    simp only [hex4] at h
    split at h
    · split at h
      · cases h
        simp
        omega
      · cases h
    · cases h

theorem escDecode_length (l : List Char) (p : Char × List Char)
    (h : escDecode l = some p) : p.2.length < l.length := by
  match l with
  | [] => cases h
  | e :: rest =>
    simp only [escDecode] at h
    split at h
    · cases h; simp
    · split at h
      · cases h; simp
      · split at h
        · cases h; simp
        · split at h
          · cases h; simp
          · split at h
            · cases h; simp
            · split at h
              · cases h; simp
              · split at h
                · cases h; simp
                · split at h
                  · cases h; simp
                  · split at h
                    · have := hex4_length rest p h
                      simp
                      omega
                    · cases h

/-- `JSON.parse` consuming a string literal body: reads characters after the
opening quote up to the closing quote, undoing escapes, and returns the
decoded characters together with the input after the closing quote.
Unescaped control characters are rejected as in the JSON grammar. -/
def unescapeAux : List Char → Option (List Char × List Char)
  | [] => none
  | c :: rest =>
    if c = Char.ofNat 34 then some ([], rest)
    else if c = Char.ofNat 92 then
      match hesc : escDecode rest with
      | none => none
      | some (d, rest2) => mapConsOpt d (unescapeAux rest2)
    else if c.toNat < 32 then none
    else mapConsOpt c (unescapeAux rest)
termination_by l => l.length
decreasing_by
  · have hlen : rest2.length < rest.length := escDecode_length rest (d, rest2) hesc
    simp only [List.length_cons]
    omega
  · simp

/-- Match a literal character sequence at the head of the input, returning
the remainder. -/
def dropLit : List Char → List Char → Option (List Char)
  | [], input => some input
  | _ :: _, [] => none
  | p :: ps, c :: cs => if c = p then dropLit ps cs else none

/-- The characters `{"variables":"` opening the serialized form record. -/
def openVars : List Char :=
  "\x7b\"variables\":\"".data

/-- The characters `","description":"` between the two record fields. -/
def midDesc : List Char :=
  "\",\"description\":\"".data

/-- The characters `"}` closing the serialized form record. -/
def closeRec : List Char :=
  "\"\x7d".data

/-- `JSON.stringify(newData)` (App.tsx line 152) for the two-field form
record `{ variables, description }`: fields in object-literal insertion
order, strings quoted per `escapeChar`. -/
def jsonStringifyNewData (nd : NewData) : String :=
  String.mk (openVars ++ escList nd.«variables».data ++ midDesc ++
    escList nd.description.data ++ closeRec)

/-- `JSON.parse` specialised to the exact record shape `JSON.stringify`
produces for `newData` (the only shape the round trip of the claim visits):
the two-field object with both values strings, no surrounding whitespace. -/
def jsonParseNewData (s : String) : Option NewData :=
  match dropLit openVars s.data with
  | none => none
  | some r1 =>
    match unescapeAux r1 with
    | none => none
    | some (v, r2) =>
      match dropLit (",\"description\":\"".data) r2 with
      | none => none
      | some r3 =>
        match unescapeAux r3 with
        | none => none
        | some (d, r4) =>
          if r4 = [Char.ofNat 125] then some ⟨String.mk v, String.mk d⟩ else none

/-- The base64 alphabet character for a 6-bit group. -/
def b64Char (n : Nat) : Char :=
  if n < 26 then Char.ofNat (65 + n)
  else if n < 52 then Char.ofNat (97 + (n - 26))
  else if n < 62 then Char.ofNat (48 + (n - 52))
  else if n = 62 then '+'
  else '/'

/-- Value of a base64 alphabet character. -/
def b64Val (c : Char) : Option Nat :=
  if 65 ≤ c.toNat ∧ c.toNat ≤ 90 then some (c.toNat - 65)
  else if 97 ≤ c.toNat ∧ c.toNat ≤ 122 then some (c.toNat - 71)
  else if 48 ≤ c.toNat ∧ c.toNat ≤ 57 then some (c.toNat + 4)
  else if c = '+' then some 62
  else if c = '/' then some 63
  else none

/-- RFC 4648 base64 encoding of a byte list (each entry below 256), with
`=` padding, as `btoa` produces. -/
def base64EncodeAux : List Nat → List Char
  | [] => []
  | [a] => [b64Char (a / 4), b64Char (a % 4 * 16), '=', '=']
  | [a, b] => [b64Char (a / 4), b64Char (a % 4 * 16 + b / 16), b64Char (b % 16 * 4), '=']
  | a :: b :: c :: rest =>
    b64Char (a / 4) :: b64Char (a % 4 * 16 + b / 16) :: b64Char (b % 16 * 4 + c / 64) ::
      b64Char (c % 64) :: base64EncodeAux rest

/-- Base64 decoding (the `atob` direction): four characters at a time, the
final quantum optionally padded, rejecting anything outside the alphabet or
with nonzero discarded bits. -/
def base64DecodeAux : List Char → Option (List Nat)
  | [] => some []
  | c1 :: c2 :: c3 :: c4 :: rest =>
    match b64Val c1, b64Val c2 with
    | some a, some b =>
      if c3 = '=' then
        if c4 = '=' ∧ rest = [] ∧ b % 16 = 0 then some [a * 4 + b / 16] else none
      else
        match b64Val c3 with
        | some c =>
          if c4 = '=' then
            if rest = [] ∧ c % 4 = 0 then some [a * 4 + b / 16, b % 16 * 16 + c / 4]
            else none
          else
            match b64Val c4, base64DecodeAux rest with
            | some d, some tail =>
              some ((a * 4 + b / 16) :: (b % 16 * 16 + c / 4) :: (c % 4 * 64 + d) :: tail)
            | _, _ => none
        | none => none
    | _, _ => none
  | _ => none

/-- The browser's `btoa`: fails (throws `InvalidCharacterError`) if any
character of the argument is above U+00FF, otherwise base64-encodes the
characters read as bytes. -/
def btoa (s : String) : Option String :=
  if s.data.all (fun c => c.toNat < 256) then
    some (String.mk (base64EncodeAux (s.data.map Char.toNat)))
  else none

/-- The browser's `atob`: base64-decodes into a string of the decoded bytes. -/
def atob (s : String) : Option String :=
  (base64DecodeAux s.data).map (fun bytes => String.mk (bytes.map Char.ofNat))

/-- The simulated "FHE encryption" of App.tsx line 152:
`` `FHE-${btoa(JSON.stringify(newData))}` ``.  `none` models the
`InvalidCharacterError` thrown by `btoa` on non-Latin-1 text, which the
surrounding `try` turns into a failed submission. -/
def fheEncrypt (nd : NewData) : Option String :=
  match btoa (jsonStringifyNewData nd) with
  | some b => some ("FHE-" ++ b)
  | none => none

/-- The reverse of the encoding: strip the `FHE-` marker, base64-decode,
`JSON.parse` the result back into the form record. -/
def fheDecrypt (s : String) : Option NewData :=
  match dropLit ("FHE-".data) s.data with
  | none => none
  | some rest =>
    match atob (String.mk rest) with
    | none => none
    | some decoded => jsonParseNewData decoded

/-- The record `submitData` stores under `data_<dataId>` (App.tsx lines
161-166). -/
def pendingRecord (enc : String) (now : Int) (account : String) : Json :=
  Json.obj [("variables", Json.str enc), ("timestamp", Json.num now),
    ("institution", Json.str account), ("status", Json.str "pending")]

/-- The id list `submitData` is about to push onto (App.tsx lines 174-185):
an empty or unparseable `data_keys` blob starts a fresh list, an array blob
is reused, and any other JSON value makes the later `keys.push` throw a
`TypeError` (`none` here). -/
def keysOrNew : Option Json → Option (List Json)
  | none => some []
  | some (Json.arr elems) => some elems
  | some _ => none

/-- `submitData` (App.tsx lines 137-225), chain effects of the success path
with a connected wallet: encrypt the form record, store the pending record
under `data_<dataId>` (the fresh `Date.now()`-plus-random id and the unix
timestamp are arguments), then read, extend and rewrite `data_keys`.  The
pair carries the world after the writes that happened and the
`Except`-rendered transaction status. -/
def submitData (w : World) (account : String) (nd : NewData) (dataId : String)
    (now : Int) : World × Except String Unit :=
  match fheEncrypt nd with
  | none => (w, Except.error "InvalidCharacterError")
  | some enc =>
    let w1 := setData w (dataKey dataId) (pendingRecord enc now account)
    match keysOrNew (getData w1 "data_keys") with
    | none => (w1, Except.error "keys.push is not a function")
    | some keys =>
      (setData w1 "data_keys" (Json.arr (keys ++ [Json.str dataId])), Except.ok ())

/-- The record `analyzeData` writes back:
`{...data, status: "analyzed", fheProof: "FHE-Proof-" + random}` (App.tsx
lines 255-259); the random suffix is an argument. -/
def analyzedRecord (data : Json) (rand : String) : Json :=
  setField (setField data "status" (Json.str "analyzed")) "fheProof"
    (Json.str ("FHE-Proof-" ++ rand))

/-- `analyzeData` (App.tsx lines 227-288), chain effects with a connected
wallet: after the simulated three-second "FHE computation" (pure UI delay),
an empty blob under `data_<dataId>` throws `"Data not found"` and nothing is
written; otherwise the parsed record is rewritten in place with status
`"analyzed"` and a fabricated proof string. -/
def analyzeData (w : World) (dataId : String) (rand : String) :
    World × Except String Unit :=
  match getData w (dataKey dataId) with
  | none => (w, Except.error "Data not found")
  | some data => (setData w (dataKey dataId) (analyzedRecord data rand), Except.ok ())

end WebApp

namespace Contract

/-- A state with dataset 1 already revealed and request 7 mapped to it:
reached, e.g., after a submit/request/decrypt round. -/
def sRevealed : ContractState :=
  { initState with
    decryptedDatasets := updMap initState.decryptedDatasets 1 ⟨"a", "b", "c", true⟩,
    requestToDatasetId := updMap initState.requestToDatasetId 7 1 }

/-- A state with a pending decryption request 7 for dataset 3. -/
def sPending : ContractState :=
  { initState with requestToDatasetId := updMap initState.requestToDatasetId 7 3 }

/-- A state holding a causal model for dataset 1. -/
def sModel : ContractState :=
  submitCausalModel initState 1 5 6 7

/-- The state reached from `sModel` by a successful
`requestModelDecryption(1, 2)` answered with request id 42. -/
def sModelReq : ContractState :=
  (requestModelDecryption sModel 99 1 2 42).toOption.getD initState

/-- The state reached from `sPending` by a successful `decryptDataset`
callback for request 7. -/
def sDecrypted : ContractState :=
  (decryptDataset sPending 7 ["x", "y", "z"] true).toOption.getD initState

/-- The state reached from `initState` by one successful
`submitEncryptedDataset`. -/
def sSubmitted : ContractState :=
  (submitEncryptedDataset initState 1 2 3 4).toOption.getD initState

/-- The state returned by a `decryptModelComponent` callback on the fresh
contract (deliberately defaulted to a different state if the call failed). -/
def sAfterModelCb : ContractState :=
  (decryptModelComponent initState 3 "x" true).toOption.getD sRevealed

end Contract

namespace WebApp

/-- A small concrete form record over Latin-1 text. -/
def wNd : NewData :=
  ⟨"a", "b"⟩

/-- The encrypted blob `submitData` computes for `wNd`. -/
def wEncVal : String :=
  (fheEncrypt wNd).getD ""

/-- A concrete stored dataset record. -/
def wRecJson : Json :=
  pendingRecord "E" 7 "0xA"

/-- A world holding `wRecJson` under key `data_d1`. -/
def wDataWorld : World :=
  setData emptyWorld (dataKey "d1") wRecJson

end WebApp

/-- C1: for every dataset id and every model component in `{0, 1, 2}`, a
(successful) `requestModelDecryption` stores the composite identifier
`datasetId * 10 + modelComponent` under the oracle's request id, and
`decryptModelComponent`'s decoding — `compositeId / 10` for the dataset id
and `compositeId % 10` for the component — recovers exactly that dataset id
and that component. -/
theorem requestModelDecryption_composite_roundtrip
    (s : Contract.ContractState) (sender datasetId mc reqId : Nat)
    (s' : Contract.ContractState) (hmc : mc ≤ 2)
    (h : Contract.requestModelDecryption s sender datasetId mc reqId = Except.ok s') :
    s'.requestToDatasetId reqId = datasetId * 10 + mc ∧
    Contract.decodeDatasetId (s'.requestToDatasetId reqId) = datasetId ∧
    Contract.decodeModelComponent (s'.requestToDatasetId reqId) = mc := by
  simp only [Contract.requestModelDecryption, Contract.onlyDataOwner] at h
  split at h
  · cases h
  · split at h
    · split at h
      · cases h
        have hl : Contract.updMap s.requestToDatasetId reqId (datasetId * 10 + mc) reqId =
            datasetId * 10 + mc := by
          simp [Contract.updMap]
        refine ⟨hl, ?_, ?_⟩
        · simp only [hl, Contract.decodeDatasetId]
          omega
        · simp only [hl, Contract.decodeModelComponent]
          omega
      · cases h
    · cases h

/-- Witness for C1: on a contract holding a model for dataset 1, requesting
component 2 with oracle request id 42 stores composite id 12, and the
decoding recovers dataset 1 and component 2. -/
theorem requestModelDecryption_composite_roundtrip_witness :
    Contract.sModelReq.requestToDatasetId 42 = 1 * 10 + 2 ∧
    Contract.decodeDatasetId (Contract.sModelReq.requestToDatasetId 42) = 1 ∧
    Contract.decodeModelComponent (Contract.sModelReq.requestToDatasetId 42) = 2 :=
  requestModelDecryption_composite_roundtrip Contract.sModel 99 1 2 42
    Contract.sModelReq (by decide) (by rfl)

/-- C5: the dataset decryption request/callback flow enforces its
preconditions.  `requestDatasetDecryption` reverts `"Already decrypted"` on a
revealed dataset; `decryptDataset` reverts `"Invalid request"` on an
unmapped request id and `"Already decrypted"` on a request mapped to an
already revealed dataset; and a non-reverting `decryptDataset` stores the
three decoded cleartexts with the revealed flag, exactly at the dataset
mapped from the request id. -/
theorem decryption_flow_guards :
    (∀ s : Contract.ContractState, ∀ sender datasetId reqId : Nat,
      (s.decryptedDatasets datasetId).isRevealed = true →
      Contract.requestDatasetDecryption s sender datasetId reqId =
        Except.error "Already decrypted") ∧
    (∀ s : Contract.ContractState, ∀ reqId : Nat, ∀ cts : List String, ∀ sig : Bool,
      s.requestToDatasetId reqId = 0 →
      Contract.decryptDataset s reqId cts sig = Except.error "Invalid request") ∧
    (∀ s : Contract.ContractState, ∀ reqId : Nat, ∀ cts : List String, ∀ sig : Bool,
      s.requestToDatasetId reqId ≠ 0 →
      (s.decryptedDatasets (s.requestToDatasetId reqId)).isRevealed = true →
      Contract.decryptDataset s reqId cts sig = Except.error "Already decrypted") ∧
    (∀ s : Contract.ContractState, ∀ reqId : Nat, ∀ r0 r1 r2 : String,
      ∀ rest : List String, ∀ sig : Bool, ∀ s' : Contract.ContractState,
      Contract.decryptDataset s reqId (r0 :: r1 :: r2 :: rest) sig = Except.ok s' →
      Contract.getDecryptedDataset s' (s.requestToDatasetId reqId) = (r0, r1, r2, true) ∧
      ∀ j, j ≠ s.requestToDatasetId reqId →
        s'.decryptedDatasets j = s.decryptedDatasets j) := by
  refine ⟨?_, ?_, ?_, ?_⟩
  · intro s sender datasetId reqId hrev
    simp [Contract.requestDatasetDecryption, Contract.onlyDataOwner, hrev]
  · intro s reqId cts sig h0
    simp [Contract.decryptDataset, h0]
  · intro s reqId cts sig h0 hrev
    simp [Contract.decryptDataset, h0, hrev]
  · intro s reqId r0 r1 r2 rest sig s' h
    simp only [Contract.decryptDataset] at h
    split at h
    · cases h
    · split at h
      · cases h
      · split at h
        · cases h
          constructor
          · simp [Contract.getDecryptedDataset, Contract.updMap]
          · intro j hj
            simp [Contract.updMap, hj]
        · cases h

/-- Witness for C5: each guard fires on a concrete state — the revealed
dataset 1 of `sRevealed` blocks new requests and its mapped callback, the
fresh contract rejects the unmapped request 7, and the pending request 7 of
`sPending` decrypts dataset 3 and only dataset 3. -/
theorem decryption_flow_guards_witness :
    Contract.requestDatasetDecryption Contract.sRevealed 9 1 8 =
      Except.error "Already decrypted" ∧
    Contract.decryptDataset Contract.initState 7 ["x"] true =
      Except.error "Invalid request" ∧
    Contract.decryptDataset Contract.sRevealed 7 ["x"] true =
      Except.error "Already decrypted" ∧
    Contract.getDecryptedDataset Contract.sDecrypted 3 = ("x", "y", "z", true) ∧
    Contract.sDecrypted.decryptedDatasets 4 = Contract.sPending.decryptedDatasets 4 :=
  ⟨decryption_flow_guards.1 Contract.sRevealed 9 1 8 (by rfl),
   decryption_flow_guards.2.1 Contract.initState 7 ["x"] true (by rfl),
   decryption_flow_guards.2.2.1 Contract.sRevealed 7 ["x"] true (by decide) (by rfl),
   (decryption_flow_guards.2.2.2 Contract.sPending 7 "x" "y" "z" [] true
     Contract.sDecrypted (by rfl)).1,
   (decryption_flow_guards.2.2.2 Contract.sPending 7 "x" "y" "z" [] true
     Contract.sDecrypted (by rfl)).2 4 (by decide)⟩

/-- C6: the model-component decryption callback has no failure handling:
for a request id that was never registered (mapped to 0),
`decryptModelComponent` still succeeds without any validity check, while
`decryptDataset` rejects the same zero mapping with `"Invalid request"`. -/
theorem decryptModelComponent_no_validity_check
    (s : Contract.ContractState) (reqId : Nat) (ct : String) (cts : List String)
    (sig : Bool) (h0 : s.requestToDatasetId reqId = 0) :
    Contract.decryptModelComponent s reqId ct true = Except.ok s ∧
    Contract.decryptDataset s reqId cts sig = Except.error "Invalid request" := by
  constructor
  · rfl
  · simp [Contract.decryptDataset, h0]

/-- Witness for C6: on the fresh contract, request id 5 was never
registered; its model callback succeeds anyway and the dataset callback
reverts. -/
theorem decryptModelComponent_no_validity_check_witness :
    Contract.decryptModelComponent Contract.initState 5 "x" true =
      Except.ok Contract.initState ∧
    Contract.decryptDataset Contract.initState 5 ["x"] true =
      Except.error "Invalid request" :=
  decryptModelComponent_no_validity_check Contract.initState 5 "x" ["x"] true (by rfl)

/-- C8: dataset identifiers are sequential and never zero.  A successful
`submitEncryptedDataset` increments `datasetCount` by exactly 1, stores the
new dataset under the key `datasetCount` with its `id` field equal to that
key, and preserves the invariant that `encryptedDatasets[i].id = i ≠ 0` for
every `i` from 1 to `datasetCount` — the invariant that gives the zero
checks of `requestCausalInference` and `decryptDataset` their meaning. -/
theorem submitEncryptedDataset_id_invariant
    (s : Contract.ContractState) (v o m t : Nat) (s' : Contract.ContractState)
    (hinv : Contract.datasetInv s)
    (h : Contract.submitEncryptedDataset s v o m t = Except.ok s') :
    s'.datasetCount = s.datasetCount + 1 ∧
    (s'.encryptedDatasets s'.datasetCount).id = s'.datasetCount ∧
    Contract.datasetInv s' := by
  simp only [Contract.submitEncryptedDataset] at h
  split at h
  · cases h
    refine ⟨rfl, ?_, ?_⟩
    · simp [Contract.updMap]
    · intro i h1 h2
      by_cases hi : i = s.datasetCount + 1
      · subst hi
        simp [Contract.updMap]
      · have hle : i ≤ s.datasetCount := by
          simp only at h2
          omega
        simpa [Contract.updMap, hi] using hinv i h1 hle
  · cases h

/-- Witness for C8: submitting to the fresh contract (whose invariant holds
vacuously) yields count 1 and a dataset stored under key 1 with id 1. -/
theorem submitEncryptedDataset_id_invariant_witness :
    Contract.sSubmitted.datasetCount = Contract.initState.datasetCount + 1 ∧
    (Contract.sSubmitted.encryptedDatasets Contract.sSubmitted.datasetCount).id =
      Contract.sSubmitted.datasetCount :=
  have h := submitEncryptedDataset_id_invariant Contract.initState 1 2 3 4
    Contract.sSubmitted
    (fun i h1 h2 => absurd (Nat.le_trans h1 h2) (by decide))
    (by rfl)
  ⟨h.1, h.2.1⟩

/-- C9: the `onlyDataOwner` modifier enforces nothing — each function it
guards behaves identically for any two callers, and the modifier itself
passes every body through unchanged. -/
theorem onlyDataOwner_enforces_nothing :
    ∀ (s : Contract.ContractState) (datasetId reqId mc a b : Nat)
      (body : Except String Contract.ContractState),
      Contract.onlyDataOwner a datasetId body = body ∧
      Contract.requestDatasetDecryption s a datasetId reqId =
        Contract.requestDatasetDecryption s b datasetId reqId ∧
      Contract.requestCausalInference s a datasetId =
        Contract.requestCausalInference s b datasetId ∧
      Contract.requestModelDecryption s a datasetId mc reqId =
        Contract.requestModelDecryption s b datasetId mc reqId :=
  fun _ _ _ _ _ _ _ => ⟨rfl, rfl, rfl, rfl⟩

/-- C10: the model-component decryption callback discards its result — a
non-reverting `decryptModelComponent` returns the state it was given,
storage and event log both untouched. -/
theorem decryptModelComponent_discards_result
    (s : Contract.ContractState) (reqId : Nat) (ct : String) (sig : Bool)
    (s' : Contract.ContractState)
    (h : Contract.decryptModelComponent s reqId ct sig = Except.ok s') :
    s' = s := by
  cases sig with
  | false => exact absurd h (by simp [Contract.decryptModelComponent])
  | true => exact (Except.ok.inj h).symm

/-- Witness for C10: the callback on the fresh contract hands back exactly
the fresh contract. -/
theorem decryptModelComponent_discards_result_witness :
    Contract.sAfterModelCb = Contract.initState :=
  decryptModelComponent_discards_result Contract.initState 3 "x" true
    Contract.sAfterModelCb (by rfl)

theorem lookupField_setFieldList_self (fs : List (String × WebApp.Json))
    (k : String) (v : WebApp.Json) :
    WebApp.lookupField (WebApp.setFieldList fs k v) k = some v := by
  induction fs with
  | nil => simp [WebApp.setFieldList, WebApp.lookupField]
  | cons p rest ih =>
    by_cases hk : p.1 = k
    · simp [WebApp.setFieldList, WebApp.lookupField, hk]
    · simp [WebApp.setFieldList, WebApp.lookupField, hk, ih]

theorem lookupField_setFieldList_ne (fs : List (String × WebApp.Json))
    (k k' : String) (v : WebApp.Json) (h : k' ≠ k) :
    WebApp.lookupField (WebApp.setFieldList fs k v) k' = WebApp.lookupField fs k' := by
  induction fs with
  | nil =>
    simp [WebApp.setFieldList, WebApp.lookupField]
    intro hc
    exact absurd hc.symm h
  | cons p rest ih =>
    have hkk : ¬ k = k' := fun hc => h hc.symm
    by_cases hk : p.1 = k
    · have hk' : ¬ p.1 = k' := fun hc => h (hc.symm.trans hk)
      simp [WebApp.setFieldList, WebApp.lookupField, hk, hk', hkk]
    · simp [WebApp.setFieldList, WebApp.lookupField, hk, ih]

theorem getField_setField_self (j : WebApp.Json) (k : String) (v : WebApp.Json) :
    WebApp.getField (WebApp.setField j k v) k = some v := by
  cases j <;>
    simp [WebApp.setField, WebApp.getField, WebApp.lookupField,
      lookupField_setFieldList_self]

theorem getField_setField_ne (j : WebApp.Json) (k k' : String) (v : WebApp.Json)
    (h : k' ≠ k) :
    WebApp.getField (WebApp.setField j k v) k' = WebApp.getField j k' := by
  have hkk : ¬ k = k' := fun hc => h hc.symm
  cases j <;>
    simp [WebApp.setField, WebApp.getField, WebApp.lookupField,
      lookupField_setFieldList_ne _ _ _ _ h, hkk]

/-- C3: marking a dataset "analyzed" rewrites exactly its record.  For a
stored record under `data_<dataId>`, `analyzeData` succeeds and writes back
the record with `status` set to `"analyzed"` and `fheProof` set to the
fabricated `FHE-Proof-<random>` string, every other field unchanged; when
the blob under `data_<dataId>` is empty, it fails with `"Data not found"`
and writes nothing. -/
theorem analyzeData_rewrites_record :
    (∀ (w : WebApp.World) (dataId rand : String) (data : WebApp.Json),
      WebApp.getData w (WebApp.dataKey dataId) = some data →
      (WebApp.analyzeData w dataId rand).2 = Except.ok () ∧
      WebApp.getData (WebApp.analyzeData w dataId rand).1 (WebApp.dataKey dataId) =
        some (WebApp.analyzedRecord data rand) ∧
      WebApp.getField (WebApp.analyzedRecord data rand) "status" =
        some (WebApp.Json.str "analyzed") ∧
      WebApp.getField (WebApp.analyzedRecord data rand) "fheProof" =
        some (WebApp.Json.str ("FHE-Proof-" ++ rand)) ∧
      (∀ k, k ≠ "status" → k ≠ "fheProof" →
        WebApp.getField (WebApp.analyzedRecord data rand) k = WebApp.getField data k)) ∧
    (∀ (w : WebApp.World) (dataId rand : String),
      WebApp.getData w (WebApp.dataKey dataId) = none →
      WebApp.analyzeData w dataId rand = (w, Except.error "Data not found")) := by
  constructor
  · intro w dataId rand data h
    refine ⟨?_, ?_, ?_, ?_, ?_⟩
    · simp [WebApp.analyzeData, h]
    · simp only [WebApp.analyzeData, h]
      simp [WebApp.getData, WebApp.setData]
    · rw [WebApp.analyzedRecord, getField_setField_ne _ _ _ _ (by decide),
        getField_setField_self]
    · rw [WebApp.analyzedRecord, getField_setField_self]
    · intro k hks hkp
      rw [WebApp.analyzedRecord, getField_setField_ne _ _ _ _ hkp,
        getField_setField_ne _ _ _ _ hks]
  · intro w dataId rand h
    simp [WebApp.analyzeData, h]

/-- Witness for C3: analyzing the stored record of `wDataWorld` writes back
that record with the analyzed status and proof string, leaving `variables`
untouched, and analyzing a missing id on the empty world fails. -/
theorem analyzeData_rewrites_record_witness :
    (WebApp.analyzeData WebApp.wDataWorld "d1" "r").2 = Except.ok () ∧
    WebApp.getData (WebApp.analyzeData WebApp.wDataWorld "d1" "r").1
      (WebApp.dataKey "d1") = some (WebApp.analyzedRecord WebApp.wRecJson "r") ∧
    WebApp.getField (WebApp.analyzedRecord WebApp.wRecJson "r") "status" =
      some (WebApp.Json.str "analyzed") ∧
    WebApp.getField (WebApp.analyzedRecord WebApp.wRecJson "r") "fheProof" =
      some (WebApp.Json.str ("FHE-Proof-" ++ "r")) ∧
    WebApp.getField (WebApp.analyzedRecord WebApp.wRecJson "r") "variables" =
      WebApp.getField WebApp.wRecJson "variables" ∧
    WebApp.analyzeData WebApp.emptyWorld "nope" "r" =
      (WebApp.emptyWorld, Except.error "Data not found") :=
  have h := analyzeData_rewrites_record.1 WebApp.wDataWorld "d1" "r"
    WebApp.wRecJson (by rfl)
  ⟨h.1, h.2.1, h.2.2.1, h.2.2.2.1,
   h.2.2.2.2 "variables" (by decide) (by decide),
   analyzeData_rewrites_record.2 WebApp.emptyWorld "nope" "r" (by rfl)⟩

/-- C7: the web app never calls the FedCausalFHE contract.  Its operations
go through the generic key/value interface only, so `submitData` and
`analyzeData` leave the whole FedCausalFHE state — `datasetCount`,
`encryptedDatasets`, `decryptedDatasets`, `causalModels`,
`requestToDatasetId` (and the event log) — unchanged, and `loadData` reads
nothing from it at all. -/
theorem webapp_leaves_contract_untouched :
    ∀ (w : WebApp.World) (account : String) (nd : WebApp.NewData)
      (dataId dataId2 rand : String) (now : Int),
      (WebApp.submitData w account nd dataId now).1.fed = w.fed ∧
      (WebApp.analyzeData w dataId2 rand).1.fed = w.fed ∧
      (∀ fed2 : Contract.ContractState,
        WebApp.loadData ⟨w.kv, fed2⟩ = WebApp.loadData w) := by
  intro w account nd dataId dataId2 rand now
  refine ⟨?_, ?_, fun fed2 => rfl⟩
  · unfold WebApp.submitData
    split
    · rfl
    · dsimp only
      split
      · rfl
      · rfl
  · unfold WebApp.analyzeData
    split
    · rfl
    · rfl

theorem char_toNat_inj {a b : Char} (h : a.toNat = b.toNat) : a = b := by
  rw [← Char.ofNat_toNat a, ← Char.ofNat_toNat b, h]

theorem hexVal_hexDigitChar (n : Nat) (h : n < 16) :
    WebApp.hexVal (WebApp.escapeChar.hexDigitChar n) = some n := by
  interval_cases n <;> decide

theorem unescapeAux_u00 (t : Nat) (ht : t < 32) (l : List Char) :
    WebApp.unescapeAux (Char.ofNat 92 :: 'u' :: '0' :: '0' ::
      WebApp.escapeChar.hexDigitChar (t / 16) ::
      WebApp.escapeChar.hexDigitChar (t % 16) :: l) =
    WebApp.mapConsOpt (Char.ofNat t) (WebApp.unescapeAux l) := by
  interval_cases t <;> (rw [WebApp.unescapeAux]; rfl)

theorem unescapeAux_escapeChar (c : Char) (l : List Char) :
    WebApp.unescapeAux (WebApp.escapeChar c ++ l) =
      WebApp.mapConsOpt c (WebApp.unescapeAux l) := by
  by_cases h1 : c = Char.ofNat 34
  · subst h1
    show WebApp.unescapeAux (Char.ofNat 92 :: Char.ofNat 34 :: l) = _
    rw [WebApp.unescapeAux]
    rfl
  by_cases h2 : c = Char.ofNat 92
  · subst h2
    show WebApp.unescapeAux (Char.ofNat 92 :: Char.ofNat 92 :: l) = _
    rw [WebApp.unescapeAux]
    rfl
  by_cases h3 : c.toNat = 8
  · rw [char_toNat_inj (h3.trans (by decide : (8 : Nat) = (Char.ofNat 8).toNat))]
    show WebApp.unescapeAux (Char.ofNat 92 :: 'b' :: l) = _
    rw [WebApp.unescapeAux]
    rfl
  by_cases h4 : c.toNat = 9
  · rw [char_toNat_inj (h4.trans (by decide : (9 : Nat) = (Char.ofNat 9).toNat))]
    show WebApp.unescapeAux (Char.ofNat 92 :: 't' :: l) = _
    rw [WebApp.unescapeAux]
    rfl
  by_cases h5 : c.toNat = 10
  · rw [char_toNat_inj (h5.trans (by decide : (10 : Nat) = (Char.ofNat 10).toNat))]
    show WebApp.unescapeAux (Char.ofNat 92 :: 'n' :: l) = _
    rw [WebApp.unescapeAux]
    rfl
  by_cases h6 : c.toNat = 12
  · rw [char_toNat_inj (h6.trans (by decide : (12 : Nat) = (Char.ofNat 12).toNat))]
    show WebApp.unescapeAux (Char.ofNat 92 :: 'f' :: l) = _
    rw [WebApp.unescapeAux]
    rfl
  by_cases h7 : c.toNat = 13
  · rw [char_toNat_inj (h7.trans (by decide : (13 : Nat) = (Char.ofNat 13).toNat))]
    show WebApp.unescapeAux (Char.ofNat 92 :: 'r' :: l) = _
    rw [WebApp.unescapeAux]
    rfl
  by_cases hlt : c.toNat < 32
  · have he : WebApp.escapeChar c = [Char.ofNat 92, 'u', '0', '0',
        WebApp.escapeChar.hexDigitChar (c.toNat / 16),
        WebApp.escapeChar.hexDigitChar (c.toNat % 16)] := by
      unfold WebApp.escapeChar
      rw [if_neg h1, if_neg h2, if_neg h3, if_neg h4, if_neg h5, if_neg h6, if_neg h7,
        if_pos hlt]
    rw [he]
    simp only [List.cons_append, List.nil_append]
    rw [unescapeAux_u00 c.toNat hlt l, Char.ofNat_toNat]
  · have he : WebApp.escapeChar c = [c] := by
      unfold WebApp.escapeChar
      rw [if_neg h1, if_neg h2, if_neg h3, if_neg h4, if_neg h5, if_neg h6, if_neg h7,
        if_neg hlt]
    rw [he, List.singleton_append, WebApp.unescapeAux, if_neg h1, if_neg h2, if_neg hlt]

theorem unescapeAux_escList (l rest : List Char) :
    WebApp.unescapeAux (WebApp.escList l ++ (Char.ofNat 34 :: rest)) = some (l, rest) := by
  induction l with
  | nil =>
    show WebApp.unescapeAux (Char.ofNat 34 :: rest) = some ([], rest)
    rw [WebApp.unescapeAux, if_pos rfl]
  | cons c cs ih =>
    show WebApp.unescapeAux (WebApp.escapeChar c ++ WebApp.escList cs ++
      (Char.ofNat 34 :: rest)) = _
    rw [List.append_assoc, unescapeAux_escapeChar, ih]
    rfl

theorem dropLit_append (p l : List Char) : WebApp.dropLit p (p ++ l) = some l := by
  induction p with
  | nil => rfl
  | cons c cs ih => simp [WebApp.dropLit, ih]

theorem jsonParseNewData_stringify (nd : WebApp.NewData) :
    WebApp.jsonParseNewData (WebApp.jsonStringifyNewData nd) = some nd := by
  have hdata : (WebApp.jsonStringifyNewData nd).data =
      WebApp.openVars ++ (WebApp.escList nd.«variables».data ++
        (Char.ofNat 34 :: ((",\"description\":\"".data) ++
          (WebApp.escList nd.description.data ++ (Char.ofNat 34 :: [Char.ofNat 125]))))) := by
    show WebApp.openVars ++ WebApp.escList nd.«variables».data ++ WebApp.midDesc ++
        WebApp.escList nd.description.data ++ WebApp.closeRec = _
    rw [show WebApp.midDesc = Char.ofNat 34 :: (",\"description\":\"".data) from rfl,
      show WebApp.closeRec = Char.ofNat 34 :: [Char.ofNat 125] from rfl]
    simp [List.append_assoc]
  rw [WebApp.jsonParseNewData, hdata]
  simp only [dropLit_append, unescapeAux_escList]
  rfl

theorem b64Val_b64Char (n : Nat) (h : n < 64) :
    WebApp.b64Val (WebApp.b64Char n) = some n := by
  interval_cases n <;> decide

theorem b64Char_ne_pad (n : Nat) (h : n < 64) : ¬ WebApp.b64Char n = '=' := by
  interval_cases n <;> decide

theorem base64_decode_encode (bytes : List Nat) (h : ∀ b ∈ bytes, b < 256) :
    WebApp.base64DecodeAux (WebApp.base64EncodeAux bytes) = some bytes := by
  induction bytes using WebApp.base64EncodeAux.induct with
  | case1 => rfl
  | case2 a =>
    have ha : a < 256 := h a (by simp)
    have hv1 := b64Val_b64Char (a / 4) (by omega)
    have hv2 := b64Val_b64Char (a % 4 * 16) (by omega)
    have hval : a / 4 * 4 + a % 4 * 16 / 16 = a := by omega
    rw [WebApp.base64EncodeAux, WebApp.base64DecodeAux]
    simp only [hv1, hv2]
    simp [Nat.mul_mod_left, hval]
    omega
  | case3 a b =>
    have ha : a < 256 := h a (by simp)
    have hb : b < 256 := h b (by simp)
    have hv1 := b64Val_b64Char (a / 4) (by omega)
    have hv2 := b64Val_b64Char (a % 4 * 16 + b / 16) (by omega)
    have hv3 := b64Val_b64Char (b % 16 * 4) (by omega)
    have hne3 := b64Char_ne_pad (b % 16 * 4) (by omega)
    have hval1 : a / 4 * 4 + (a % 4 * 16 + b / 16) / 16 = a := by omega
    have hval2 : (a % 4 * 16 + b / 16) % 16 * 16 + b % 16 * 4 / 4 = b := by omega
    rw [WebApp.base64EncodeAux, WebApp.base64DecodeAux]
    simp only [hv1, hv2, hv3]
    simp [hne3, Nat.mul_mod_left, hval1, hval2]
    omega
  | case4 a b c rest ih =>
    have ha : a < 256 := h a (by simp)
    have hb : b < 256 := h b (by simp)
    have hc : c < 256 := h c (by simp)
    have hrest : ∀ x ∈ rest, x < 256 := fun x hx => h x (by simp [hx])
    have hv1 := b64Val_b64Char (a / 4) (by omega)
    have hv2 := b64Val_b64Char (a % 4 * 16 + b / 16) (by omega)
    have hv3 := b64Val_b64Char (b % 16 * 4 + c / 64) (by omega)
    have hv4 := b64Val_b64Char (c % 64) (by omega)
    have hne3 := b64Char_ne_pad (b % 16 * 4 + c / 64) (by omega)
    have hne4 := b64Char_ne_pad (c % 64) (by omega)
    have hval1 : a / 4 * 4 + (a % 4 * 16 + b / 16) / 16 = a := by omega
    have hval2 : (a % 4 * 16 + b / 16) % 16 * 16 + (b % 16 * 4 + c / 64) / 4 = b := by
      omega
    have hval3 : (b % 16 * 4 + c / 64) % 4 * 64 + c % 64 = c := by omega
    rw [WebApp.base64EncodeAux, WebApp.base64DecodeAux]
    simp only [hv1, hv2, hv3, hv4, ih hrest]
    simp [hne3, hne4, hval1, hval2, hval3]

theorem hexDigitChar_latin (n : Nat) (h : n < 16) :
    (WebApp.escapeChar.hexDigitChar n).toNat < 256 := by
  interval_cases n <;> decide

theorem escapeChar_latin (c : Char) (h : c.toNat < 256) :
    ∀ x ∈ WebApp.escapeChar c, x.toNat < 256 := by
  intro x hx
  unfold WebApp.escapeChar at hx
  split at hx
  · simp only [List.mem_cons, List.not_mem_nil, or_false] at hx
    rcases hx with rfl | rfl <;> decide
  · split at hx
    · simp only [List.mem_cons, List.not_mem_nil, or_false] at hx
      rcases hx with rfl | rfl <;> decide
    · split at hx
      · simp only [List.mem_cons, List.not_mem_nil, or_false] at hx
        rcases hx with rfl | rfl <;> decide
      · split at hx
        · simp only [List.mem_cons, List.not_mem_nil, or_false] at hx
          rcases hx with rfl | rfl <;> decide
        · split at hx
          · simp only [List.mem_cons, List.not_mem_nil, or_false] at hx
            rcases hx with rfl | rfl <;> decide
          · split at hx
            · simp only [List.mem_cons, List.not_mem_nil, or_false] at hx
              rcases hx with rfl | rfl <;> decide
            · split at hx
              · simp only [List.mem_cons, List.not_mem_nil, or_false] at hx
                rcases hx with rfl | rfl <;> decide
              · split at hx
                · simp only [List.mem_cons, List.not_mem_nil, or_false] at hx
                  rcases hx with rfl | rfl | rfl | rfl | rfl | rfl
                  · decide
                  · decide
                  · decide
                  · decide
                  · exact hexDigitChar_latin _ (by omega)
                  · exact hexDigitChar_latin _ (by omega)
                · simp only [List.mem_cons, List.not_mem_nil, or_false] at hx
                  subst hx
                  exact h

theorem escList_latin (l : List Char) (h : ∀ c ∈ l, c.toNat < 256) :
    ∀ x ∈ WebApp.escList l, x.toNat < 256 := by
  induction l with
  | nil => simp [WebApp.escList]
  | cons c cs ih =>
    intro x hx
    rw [WebApp.escList] at hx
    rcases List.mem_append.mp hx with h1 | h2
    · exact escapeChar_latin c (h c (by simp)) x h1
    · exact ih (fun d hd => h d (by simp [hd])) x h2

theorem stringify_latin (nd : WebApp.NewData)
    (h1 : ∀ c ∈ nd.«variables».data, c.toNat < 256)
    (h2 : ∀ c ∈ nd.description.data, c.toNat < 256) :
    ∀ c ∈ (WebApp.jsonStringifyNewData nd).data, c.toNat < 256 := by
  intro c hc
  have hv : ∀ x ∈ WebApp.openVars, x.toNat < 256 := by decide
  have hm : ∀ x ∈ WebApp.midDesc, x.toNat < 256 := by decide
  have hr : ∀ x ∈ WebApp.closeRec, x.toNat < 256 := by decide
  have : (WebApp.jsonStringifyNewData nd).data =
      WebApp.openVars ++ WebApp.escList nd.«variables».data ++ WebApp.midDesc ++
        WebApp.escList nd.description.data ++ WebApp.closeRec := rfl
  rw [this] at hc
  simp only [List.mem_append] at hc
  rcases hc with ((((h | h) | h) | h) | h)
  · exact hv c h
  · exact escList_latin _ h1 c h
  · exact hm c h
  · exact escList_latin _ h2 c h
  · exact hr c h

theorem string_data_append (a b : String) : (a ++ b).data = a.data ++ b.data := by
  cases a
  cases b
  rfl

theorem string_eta (s : String) : String.mk s.data = s :=
  rfl

theorem map_ofNat_map_toNat (l : List Char) :
    (l.map Char.toNat).map Char.ofNat = l := by
  induction l with
  | nil => rfl
  | cons c cs ih => simp [ih, Char.ofNat_toNat]

theorem btoa_of_latin (s : String) (h : ∀ c ∈ s.data, c.toNat < 256) :
    WebApp.btoa s = some (String.mk (WebApp.base64EncodeAux (s.data.map Char.toNat))) := by
  unfold WebApp.btoa
  rw [if_pos]
  exact List.all_eq_true.mpr fun c hc => decide_eq_true (h c hc)

theorem atob_encode (bytes : List Nat) (h : ∀ b ∈ bytes, b < 256) :
    WebApp.atob (String.mk (WebApp.base64EncodeAux bytes)) =
      some (String.mk (bytes.map Char.ofNat)) := by
  unfold WebApp.atob
  rw [show (String.mk (WebApp.base64EncodeAux bytes)).data =
    WebApp.base64EncodeAux bytes from rfl, base64_decode_encode bytes h]
  rfl

/-- C2 counterexample: the claim fails for a form record containing a
character above U+00FF — here `variables := "π"` — because `btoa` throws on
it, so `submitData` produces no `FHE-` string at all. -/
theorem fheEncrypt_fails_beyond_latin1 :
    WebApp.fheEncrypt ⟨"π", ""⟩ = none := by
  rfl

/-- C2 (amended): for every submitted form record whose two fields contain
only characters below U+0100, `submitData`'s "FHE" encryption is exactly
`"FHE-"` followed by the base64 encoding of the record's JSON serialization,
and the round trip — strip the `FHE-` marker, base64-decode, JSON-parse —
recovers the original record. -/
theorem fheEncrypt_roundtrip (nd : WebApp.NewData)
    (h1 : ∀ c ∈ nd.«variables».data, c.toNat < 256)
    (h2 : ∀ c ∈ nd.description.data, c.toNat < 256) :
    WebApp.fheEncrypt nd = some ("FHE-" ++
      String.mk (WebApp.base64EncodeAux
        ((WebApp.jsonStringifyNewData nd).data.map Char.toNat))) ∧
    (∀ s, WebApp.fheEncrypt nd = some s → WebApp.fheDecrypt s = some nd) := by
  have hlat := stringify_latin nd h1 h2
  have henc : WebApp.fheEncrypt nd = some ("FHE-" ++
      String.mk (WebApp.base64EncodeAux
        ((WebApp.jsonStringifyNewData nd).data.map Char.toNat))) := by
    unfold WebApp.fheEncrypt
    rw [btoa_of_latin _ hlat]
  refine ⟨henc, fun s hs => ?_⟩
  rw [henc] at hs
  cases hs
  have hbytes : ∀ b ∈ (WebApp.jsonStringifyNewData nd).data.map Char.toNat, b < 256 := by
    intro b hb
    rcases List.mem_map.mp hb with ⟨c, hc, rfl⟩
    exact hlat c hc
  have hat := atob_encode _ hbytes
  unfold WebApp.fheDecrypt
  rw [string_data_append]
  simp only [dropLit_append, string_eta, hat, map_ofNat_map_toNat]
  exact jsonParseNewData_stringify nd

/-- Witness for C2 (amended): the record `⟨"a", "b"⟩` encrypts to a concrete
`FHE-`-prefixed base64 string and decodes back to itself. -/
theorem fheEncrypt_roundtrip_witness :
    WebApp.fheEncrypt WebApp.wNd = some ("FHE-" ++
      String.mk (WebApp.base64EncodeAux
        ((WebApp.jsonStringifyNewData WebApp.wNd).data.map Char.toNat))) ∧
    WebApp.fheDecrypt ("FHE-" ++
      String.mk (WebApp.base64EncodeAux
        ((WebApp.jsonStringifyNewData WebApp.wNd).data.map Char.toNat))) =
      some WebApp.wNd :=
  have h := fheEncrypt_roundtrip WebApp.wNd (by decide) (by decide)
  ⟨h.1, h.2 _ h.1⟩

theorem mem_insertDesc (x y : WebApp.CausalData) (l : List WebApp.CausalData) :
    y ∈ WebApp.insertDesc x l ↔ y = x ∨ y ∈ l := by
  induction l with
  | nil => simp [WebApp.insertDesc]
  | cons z rest ih =>
    by_cases hc : z.timestamp ≤ x.timestamp
    · simp [WebApp.insertDesc, hc]
    · simp [WebApp.insertDesc, hc, ih]
      tauto

theorem mem_sortDesc (y : WebApp.CausalData) (l : List WebApp.CausalData) :
    y ∈ WebApp.sortDesc l ↔ y ∈ l := by
  induction l with
  | nil => simp [WebApp.sortDesc]
  | cons x rest ih =>
    rw [show WebApp.sortDesc (x :: rest) = WebApp.insertDesc x (WebApp.sortDesc rest)
      from rfl, mem_insertDesc]
    simp [ih]

theorem string_append_left_cancel (a b c : String) (h : a ++ b = a ++ c) : b = c := by
  apply String.ext
  have hd := congrArg String.data h
  rw [string_data_append, string_data_append] at hd
  exact List.append_cancel_left hd

/-- C4: submitting a dataset stores the placeholder encrypted record and
registers its key.  On the success path with a connected wallet, `submitData`
writes `{variables, timestamp, institution, status: "pending"}` under
`data_<dataId>`, appends `dataId` to the id array under `data_keys`, and a
subsequent `loadData` lists the new entry.  (The generated `dataId` is never
the literal `"keys"`, and `data_keys` holds an array when present — both
stated as hypotheses.) -/
theorem submitData_stores_and_registers
    (w : WebApp.World) (account : String) (nd : WebApp.NewData) (dataId : String)
    (now : Int) (enc : String) (keys : List WebApp.Json)
    (henc : WebApp.fheEncrypt nd = some enc)
    (hid : dataId ≠ "keys")
    (hkeys : WebApp.keysOrNew (WebApp.getData w "data_keys") = some keys) :
    (WebApp.submitData w account nd dataId now).2 = Except.ok () ∧
    WebApp.getData (WebApp.submitData w account nd dataId now).1
      (WebApp.dataKey dataId) = some (WebApp.pendingRecord enc now account) ∧
    WebApp.getData (WebApp.submitData w account nd dataId now).1 "data_keys" =
      some (WebApp.Json.arr (keys ++ [WebApp.Json.str dataId])) ∧
    (⟨dataId, enc, now, account, "pending", ""⟩ : WebApp.CausalData) ∈
      WebApp.loadData (WebApp.submitData w account nd dataId now).1 := by
  have hne : WebApp.dataKey dataId ≠ "data_keys" := by
    intro hcontra
    apply hid
    refine string_append_left_cancel "data_" dataId "keys" ?_
    rw [show ("data_" ++ "keys" : String) = "data_keys" from rfl]
    exact hcontra
  have hkv1 : WebApp.getData (WebApp.setData w (WebApp.dataKey dataId)
      (WebApp.pendingRecord enc now account)) "data_keys" =
      WebApp.getData w "data_keys" := by
    simp [WebApp.getData, WebApp.setData, Ne.symm hne]
  have hsubmit : WebApp.submitData w account nd dataId now =
      (WebApp.setData (WebApp.setData w (WebApp.dataKey dataId)
          (WebApp.pendingRecord enc now account))
        "data_keys" (WebApp.Json.arr (keys ++ [WebApp.Json.str dataId])),
       Except.ok ()) := by
    unfold WebApp.submitData
    rw [henc]
    dsimp only
    rw [hkv1, hkeys]
  have hrec : WebApp.getData (WebApp.submitData w account nd dataId now).1
      (WebApp.dataKey dataId) = some (WebApp.pendingRecord enc now account) := by
    rw [hsubmit]
    simp [WebApp.getData, WebApp.setData, hne]
  have hkeys2 : WebApp.getData (WebApp.submitData w account nd dataId now).1
      "data_keys" = some (WebApp.Json.arr (keys ++ [WebApp.Json.str dataId])) := by
    rw [hsubmit]
    simp [WebApp.getData, WebApp.setData]
  refine ⟨by rw [hsubmit], hrec, hkeys2, ?_⟩
  unfold WebApp.loadData
  rw [if_pos (show
      WebApp.isAvailable (WebApp.submitData w account nd dataId now).1 = true from rfl),
    hkeys2, WebApp.decodeKeys, mem_sortDesc]
  refine List.mem_filterMap.mpr ⟨dataId, ?_, ?_⟩
  · rw [List.filterMap_append]
    exact List.mem_append_right _ (by simp [WebApp.jsonAsStr])
  · rw [hrec]
    rfl

/-- Witness for C4: submitting the record `⟨"a", "b"⟩` as id `id1` to the
empty world stores the pending record, makes `data_keys` the one-element
array, and `loadData` then lists the entry. -/
theorem submitData_stores_and_registers_witness :
    (WebApp.submitData WebApp.emptyWorld "0xA" WebApp.wNd "id1" 5).2 = Except.ok () ∧
    WebApp.getData (WebApp.submitData WebApp.emptyWorld "0xA" WebApp.wNd "id1" 5).1
      (WebApp.dataKey "id1") = some (WebApp.pendingRecord WebApp.wEncVal 5 "0xA") ∧
    WebApp.getData (WebApp.submitData WebApp.emptyWorld "0xA" WebApp.wNd "id1" 5).1
      "data_keys" = some (WebApp.Json.arr ([] ++ [WebApp.Json.str "id1"])) ∧
    (⟨"id1", WebApp.wEncVal, 5, "0xA", "pending", ""⟩ : WebApp.CausalData) ∈
      WebApp.loadData (WebApp.submitData WebApp.emptyWorld "0xA" WebApp.wNd "id1" 5).1 :=
  submitData_stores_and_registers WebApp.emptyWorld "0xA" WebApp.wNd "id1" 5
    WebApp.wEncVal [] (by rfl) (by decide) (by rfl)
